import Mathlib

/-!
# OrderFlow core: shallow embedding and verification

A shallow embedding of the OrderFlow order-lifecycle core
(`orderflow/models/order.py`, `orderflow/commands/update_status.py`,
`orderflow/commands/view.py`, `orderflow/commands/check_duplicates.py`)
and proofs about it.

Modelling conventions:
* Python strings are modelled as `List Char` (`Str`) so that every
  operation reduces inside the kernel; helper functions mirror the
  Python `str` methods actually used by the code (`strip`, `lower`,
  `split`, substring test, digit parsing).
* Python `float` amounts are modelled as `ℚ`.  All amounts appearing in
  the verified scenarios are exactly representable, so the `float`/`ℚ`
  distinction does not affect any claim settled here.
* `datetime.fromisoformat` is modelled by `parseIso`, an executable
  parser for the `YYYY-MM-DD[ T]HH:MM:SS[.ffffff]` / `YYYY-MM-DD`
  shapes the program itself writes (it always stores
  `datetime.isoformat()` output).  Timestamps compare via microseconds
  on the proleptic-Gregorian ordinal, exactly Python's `toordinal`.
* Fallible Python paths (raised `ValueError`, `AttributeError`) are
  modelled with `Option`/`Except`.
-/

/-- Python strings, modelled as their character lists. -/
abbrev Str := List Char

/-- Convert a Lean string literal into the `Str` model. -/
def str (s : String) : Str := s.data

/-- Python `str.strip()` (whitespace on both ends). -/
def strTrim (s : Str) : Str :=
  ((s.dropWhile Char.isWhitespace).reverse.dropWhile Char.isWhitespace).reverse

/-- Python `str.lower()` (ASCII case folding suffices for this code). -/
def strLower (s : Str) : Str := s.map Char.toLower

/-- Python `str.split(sep)` for a one-character separator:
`"".split(",") == [""]`, and empty pieces are kept. -/
def strSplitOn (sep : Char) : Str → List Str
  | [] => [[]]
  | c :: t =>
    if c = sep then [] :: strSplitOn sep t
    else
      match strSplitOn sep t with
      | [] => [[c]]
      | h :: r => (c :: h) :: r

/-- Python `str.split(sep, 1)`: split at the first occurrence of `sep`;
`none` when `sep` does not occur. -/
def strSplitFirst (sep : Char) : Str → Option (Str × Str)
  | [] => none
  | c :: t =>
    if c = sep then some ([], t)
    else
      match strSplitFirst sep t with
      | none => none
      | some (a, b) => some (c :: a, b)

/-- Python `needle in hay` on strings (contiguous substring test). -/
def strContains (hay needle : Str) : Bool :=
  if needle.isPrefixOf hay then true
  else
    match hay with
    | [] => false
    | _ :: t => strContains t needle

/-- Python `",".join(l)`. -/
def strJoin (sep : Char) : List Str → Str
  | [] => []
  | [s] => s
  | s :: t => s ++ sep :: strJoin sep t

/-- Python `int(s)` restricted to unsigned decimal digit strings.
(The CLI quantity fields this is applied to are plain digit strings;
`int` inputs that this subset rejects — signs, underscores — are coerced
to the same `1` default by the surrounding code for the negative case.) -/
def strToNat? (s : Str) : Option Nat :=
  if s ≠ [] ∧ s.all Char.isDigit then
    some (s.foldl (fun n c => 10 * n + (c.toNat - 48)) 0)
  else none

/-! ## Dates and times (`datetime` subset used by the program) -/

/-- Gregorian leap-year test, as in Python's `calendar.isleap`. -/
def isLeap (y : Nat) : Bool := (y % 4 = 0 && y % 100 ≠ 0) || y % 400 = 0

/-- Days in a month of a given year. -/
def daysInMonth (y m : Nat) : Nat :=
  if m = 2 then (if isLeap y then 29 else 28)
  else if m = 4 ∨ m = 6 ∨ m = 9 ∨ m = 11 then 30
  else 31

/-- Days before January 1 of year `y`, counting from year 1
(Python `datetime.date.toordinal` helper `_days_before_year`). -/
def daysBeforeYear (y : Nat) : Nat :=
  let n := y - 1
  365 * n + n / 4 - n / 100 + n / 400

/-- Days in year `y` before the first of month `m`. -/
def daysBeforeMonth (y m : Nat) : Nat :=
  (List.range m).foldl (fun acc i => if 1 ≤ i then acc + daysInMonth y i else acc) 0

/-- Python `date(y, m, d).toordinal()`. -/
def toOrdinal (y m d : Nat) : Nat := daysBeforeYear y + daysBeforeMonth y m + d

/-- A parsed `datetime.datetime` value (naive, no timezone — the program
never stores timezone-aware values). -/
structure DateTime where
  year : Nat
  month : Nat
  day : Nat
  hour : Nat
  minute : Nat
  second : Nat
  usec : Nat
deriving DecidableEq, Repr

/-- Date ordinal of the datetime (Python `dt.date().toordinal()`). -/
def DateTime.dateOrdinal (dt : DateTime) : Nat := toOrdinal dt.year dt.month dt.day

/-- Microseconds since the year-1 epoch; subtraction of two of these is
Python `(dt2 - dt1).total_seconds() * 1e6`. -/
def DateTime.toMicros (dt : DateTime) : Nat :=
  ((dt.dateOrdinal * 24 + dt.hour) * 3600 + dt.minute * 60 + dt.second) * 1000000 + dt.usec

/-- Read exactly two digits. -/
def digits2 (a b : Char) : Option Nat :=
  if a.isDigit ∧ b.isDigit then some ((a.toNat - 48) * 10 + (b.toNat - 48)) else none

/-- Read exactly four digits. -/
def digits4 (a b c d : Char) : Option Nat :=
  if a.isDigit ∧ b.isDigit ∧ c.isDigit ∧ d.isDigit then
    some ((((a.toNat - 48) * 10 + (b.toNat - 48)) * 10 + (c.toNat - 48)) * 10 + (d.toNat - 48))
  else none

/-- Validate and assemble a parsed date (Python raises on out-of-range
components; `MINYEAR = 1`). -/
def checkDate (y m d : Nat) : Option (Nat × Nat × Nat) :=
  if 1 ≤ y ∧ 1 ≤ m ∧ m ≤ 12 ∧ 1 ≤ d ∧ d ≤ daysInMonth y m then some (y, m, d) else none

/-- Parse `YYYY-MM-DD` exactly (Python `datetime.strptime(s, "%Y-%m-%d")`
and the date part of `fromisoformat`). -/
def parseDate (s : Str) : Option (Nat × Nat × Nat) :=
  match s with
  | [y1, y2, y3, y4, '-', m1, m2, '-', d1, d2] =>
    match digits4 y1 y2 y3 y4, digits2 m1 m2, digits2 d1 d2 with
    | some y, some m, some d => checkDate y m d
    | _, _, _ => none
  | _ => none

/-- Parse an optional `.ffffff` microsecond suffix (1–6 fractional digits). -/
def parseFraction (s : Str) : Option Nat :=
  match s with
  | [] => some 0
  | '.' :: ds =>
    if 1 ≤ ds.length ∧ ds.length ≤ 6 ∧ ds.all Char.isDigit then
      some ((ds.foldl (fun n c => 10 * n + (c.toNat - 48)) 0) * 10 ^ (6 - ds.length))
    else none
  | _ => none

/-- `datetime.fromisoformat`, restricted to the shapes this program
produces and consumes: `YYYY-MM-DD`, or date, separator (`T` or space),
`HH:MM:SS` and an optional fractional-seconds suffix. -/
def parseIso (s : Str) : Option DateTime :=
  match s with
  | [y1, y2, y3, y4, '-', m1, m2, '-', d1, d2] =>
    match parseDate [y1, y2, y3, y4, '-', m1, m2, '-', d1, d2] with
    | some (y, m, d) => some ⟨y, m, d, 0, 0, 0, 0⟩
    | none => none
  | y1 :: y2 :: y3 :: y4 :: '-' :: m1 :: m2 :: '-' :: d1 :: d2 :: sep :: h1 :: h2 :: ':' :: i1 :: i2 :: ':' :: s1 :: s2 :: rest =>
    if sep = 'T' ∨ sep = ' ' then
      match parseDate [y1, y2, y3, y4, '-', m1, m2, '-', d1, d2],
            digits2 h1 h2, digits2 i1 i2, digits2 s1 s2, parseFraction rest with
      | some (y, m, d), some h, some i, some sec, some us =>
        if h ≤ 23 ∧ i ≤ 59 ∧ sec ≤ 59 then some ⟨y, m, d, h, i, sec, us⟩ else none
      | _, _, _, _, _ => none
    else none
  | _ => none

/-- Zero-pad a number to two digits. -/
def pad2 (n : Nat) : Str := if n < 10 then '0' :: (Nat.toDigits 10 n) else Nat.toDigits 10 n

/-- Zero-pad a number to four digits (years in this program are 4-digit). -/
def pad4 (n : Nat) : Str :=
  let d := Nat.toDigits 10 n
  List.replicate (4 - d.length) '0' ++ d

/-- Zero-pad a number to six digits. -/
def pad6 (n : Nat) : Str :=
  let d := Nat.toDigits 10 n
  List.replicate (6 - d.length) '0' ++ d

/-- Python `datetime.isoformat()`: `YYYY-MM-DDTHH:MM:SS`, with a
`.ffffff` suffix exactly when the microsecond field is nonzero. -/
def DateTime.isoformat (dt : DateTime) : Str :=
  pad4 dt.year ++ '-' :: pad2 dt.month ++ '-' :: pad2 dt.day ++
    'T' :: pad2 dt.hour ++ ':' :: pad2 dt.minute ++ ':' :: pad2 dt.second ++
    (if dt.usec = 0 then [] else '.' :: pad6 dt.usec)

/-! ## The `Order` entity (`orderflow/models/order.py`) -/

/-- One dish line of an order: `{"name": ..., "quantity": ...}` after
`Order._parse_dishes` has run (quantities are always coerced to ≥ 1). -/
structure Dish where
  name : Str
  quantity : Nat
deriving DecidableEq, Repr

/-- A `status_history` entry `(timestamp, status, note | None)`. -/
abbrev HistEntry := Str × Str × Option Str

/-- `orderflow/models/delivery_info.py`: value object `{partner_name, eta}`. -/
structure DeliveryInfo where
  partner_name : Str
  eta : Str
deriving DecidableEq, Repr

/-- The `Order` entity after construction (all constructor invariants
already applied).  `assignment_history` entries are free-form audit
records the core never inspects; they are modelled opaquely as strings. -/
structure Order where
  order_id : Str
  customer_name : Str
  dishes : List Dish
  order_total : ℚ
  status : Str
  order_time : Str
  tags : List Str
  notes : Str
  status_history : List HistEntry
  delivery_info : Option DeliveryInfo
  assignment_history : List Str
deriving DecidableEq, Repr

/-- `Order.VALID_STATUSES`. -/
def VALID_STATUSES : List Str := [str "new", str "preparing", str "delivered", str "canceled"]

/-- A raw dish mapping as found in stored dictionaries:
`quantity` is `none` when the key is missing or fails `int()` coercion. -/
structure RawDish where
  name : Str
  quantity : Option Int
deriving DecidableEq, Repr

/-- The three input shapes `Order._parse_dishes` accepts. -/
inductive DishesInput where
  | dicts (l : List RawDish)
  | names (l : List Str)
  | text (s : Str)
deriving DecidableEq, Repr

/-- Quantity coercion in `_parse_dishes`: parse failure or a value < 1
becomes 1. -/
def coerceQty : Option Int → Nat
  | none => 1
  | some q => if q < 1 then 1 else q.toNat

/-- Parse one comma-separated item of the CLI string format
(`"Dish:2"` or `"Dish"`); `none` when the dish name is empty (the item
is then skipped). -/
def parseDishItem (item : Str) : Option Dish :=
  match strSplitFirst ':' item with
  | some (namePart, qtyPart) =>
    let dish_name := strTrim namePart
    if dish_name = [] then none
    else
      let quantity :=
        match strToNat? (strTrim qtyPart) with
        | some q => if q < 1 then 1 else q
        | none => 1
      some ⟨dish_name, quantity⟩
  | none => some ⟨strTrim item, 1⟩

/-- `Order._parse_dishes`, covering its three branches: a list of dish
mappings, a list of plain names, or a delimited CLI string. -/
def parseDishes : DishesInput → List Dish
  | .dicts l => l.map (fun r => ⟨strTrim r.name, coerceQty r.quantity⟩)
  | .names l => (l.filter (fun s => strTrim s ≠ [])).map (fun s => ⟨strTrim s, 1⟩)
  | .text s =>
    let items := ((strSplitOn ',' s).map strTrim).filter (· ≠ [])
    items.foldr (fun item acc =>
      match parseDishItem item with
      | some d => d :: acc
      | none => acc) []

/-- `Order.get_dish_names`. -/
def Order.get_dish_names (o : Order) : List Str := o.dishes.map Dish.name

/-- `Order.has_dish`: case-insensitive substring match against any dish
name. -/
def Order.has_dish (o : Order) (dish_name : Str) : Bool :=
  o.dishes.any (fun d => strContains (strLower d.name) (strLower dish_name))

/-- `Order.get_total_quantity`. -/
def Order.get_total_quantity (o : Order) : Nat :=
  (o.dishes.map Dish.quantity).sum

/-- Python `dict` assignment `m[k] = v`: overwrite the (unique) existing
entry in place, else append. -/
def dictSet (k : Str) (v : ℚ) : List (Str × ℚ) → List (Str × ℚ)
  | [] => [(k, v)]
  | (k0, v0) :: t => if k0 = k then (k0, v) :: t else (k0, v0) :: dictSet k v t

/-- `Order.calculate_dish_revenue`: the insertion-ordered dict built by
the comprehension `{dish['name']: dish['quantity'] * per_unit_revenue}`
(duplicate names therefore keep only the last entry, as in Python). -/
def Order.calculate_dish_revenue (o : Order) : List (Str × ℚ) :=
  let total_quantity := o.get_total_quantity
  if total_quantity = 0 then []
  else
    let per_unit_revenue := o.order_total / (total_quantity : ℚ)
    o.dishes.foldl (fun acc d => dictSet d.name ((d.quantity : ℚ) * per_unit_revenue) acc) []

/-! ## Order construction and serialization -/

/-- A legacy or current `status_history` entry as stored:
2-tuples (old format) or 3-tuples. -/
inductive RawHist where
  | two (timestamp status : Str)
  | three (timestamp status : Str) (note : Option Str)
deriving DecidableEq, Repr

/-- The constructor's backward-compatibility upgrade of history entries:
2-tuples gain `note = None`. -/
def upgradeHist : RawHist → HistEntry
  | .two t s => (t, s, none)
  | .three t s n => (t, s, n)

/-- The two input shapes the constructor accepts for `tags`. -/
inductive TagsInput where
  | list (l : List Str)
  | text (s : Str)
deriving DecidableEq, Repr

/-- Tag normalization in `Order.__init__`: strip every tag, drop the
empty ones; a string input is first split on commas. -/
def parseTags : Option TagsInput → List Str
  | none => []
  | some (.list l) => (l.map strTrim).filter (· ≠ [])
  | some (.text s) => ((strSplitOn ',' s).map strTrim).filter (· ≠ [])

/-- Lowercase hexadecimal digit. -/
def isHexLower (c : Char) : Bool := c.isDigit || ('a' ≤ c && c ≤ 'f')

/-- Canonical hyphenated UUID shape `8-4-4-4-12`, lowercase hex. -/
def isCanonicalUUID (s : Str) : Bool :=
  match strSplitOn '-' s with
  | [a, b, c, d, e] =>
    a.length = 8 && b.length = 4 && c.length = 4 && d.length = 4 && e.length = 12 &&
      (a ++ b ++ c ++ d ++ e).all isHexLower
  | _ => false

/-- `str(uuid.UUID(s))`, modelled on the hyphenated form: accepted
case-insensitively and normalized to lowercase; `none` on anything
else.  (Python additionally accepts braced/URN/undashed spellings the
program never produces; every id the program stores is already the
canonical `str(uuid4())` form, a fixed point of this function.) -/
def uuidParse (s : Str) : Option Str :=
  if isCanonicalUUID (strLower s) then some (strLower s) else none

/-- Timestamp validation/normalization in `Order.__init__`:
`datetime.fromisoformat` (with the program's `strptime` fallbacks
`"%Y-%m-%d %H:%M:%S"` and `"%Y-%m-%d"`, both shapes `parseIso` already
covers) followed by `dt.isoformat()`. -/
def normalizeOrderTime (s : Str) : Option Str := (parseIso s).map DateTime.isoformat

/-- `Order.__init__`: validates every field and produces the order, or
fails (`ValueError` ↦ `none`).  The ambient effects `uuid.uuid4()` and
`datetime.now().isoformat()` are passed in as `genId` and `now`. -/
def mkOrder (customer_name : Str) (dishes : DishesInput) (order_total : ℚ) (status : Str)
    (order_id : Option Str) (order_time : Option Str) (tags : Option TagsInput)
    (notes : Option Str) (status_history : Option (List RawHist))
    (delivery_info : Option DeliveryInfo) (assignment_history : List Str)
    (genId now : Str) : Option Order :=
  if strTrim customer_name = [] then none
  else
    let parsed_dishes := parseDishes dishes
    if parsed_dishes = [] then none
    else if order_total ≤ 0 then none
    else if status ∉ VALID_STATUSES then none
    else
      match (match order_id with
             | some oid => uuidParse oid
             | none => some genId) with
      | none => none
      | some oid =>
        match (match order_time with
               | some t => normalizeOrderTime t
               | none => some now) with
        | none => none
        | some otime =>
          let hist := match status_history with
            | none => [(otime, status, none)]
            | some l => l.map upgradeHist
          some
            { order_id := oid
              customer_name := strTrim customer_name
              dishes := parsed_dishes
              order_total := order_total
              status := status
              order_time := otime
              tags := parseTags tags
              notes := notes.getD []
              status_history := hist
              delivery_info := delivery_info
              assignment_history := assignment_history }

/-- The dictionary written by `Order.to_dict` (all keys always present;
`delivery_info = none` models the empty dict `{}`). -/
structure OrderDict where
  order_id : Str
  customer_name : Str
  dishes : List Dish
  order_total : ℚ
  status : Str
  order_time : Str
  tags : Str
  notes : Str
  status_history : List HistEntry
  delivery_info : Option DeliveryInfo
  assignment_history : List Str
deriving DecidableEq, Repr

/-- `Order.to_dict`: tags are serialized as a comma-joined string. -/
def Order.to_dict (o : Order) : OrderDict :=
  { order_id := o.order_id
    customer_name := o.customer_name
    dishes := o.dishes
    order_total := o.order_total
    status := o.status
    order_time := o.order_time
    tags := strJoin ',' o.tags
    notes := o.notes
    status_history := o.status_history
    delivery_info := o.delivery_info
    assignment_history := o.assignment_history }

/-- `Order.from_dict` on a dictionary in which every key is present (the
shape `to_dict` writes): dishes go back through the dict-list branch of
`_parse_dishes`, tags through comma splitting, and the constructor
re-validates everything.  (The legacy `dish_names`/`delivery_partner`
branches apply only to records `to_dict` never writes.) -/
def Order.from_dict (now genId : Str) (d : OrderDict) : Option Order :=
  let order_time := if d.order_time = [] then now else d.order_time
  mkOrder d.customer_name
    (.dicts (d.dishes.map fun x => ⟨x.name, some (x.quantity : Int)⟩))
    d.order_total d.status (some d.order_id) (some order_time)
    (some (.text d.tags)) (some d.notes)
    (some (d.status_history.map fun e => RawHist.three e.1 e.2.1 e.2.2))
    d.delivery_info d.assignment_history genId now

/-! ## Status transition engine (`commands/update_status.py`) -/

/-- `UpdateStatusCommand.VALID_TRANSITIONS`.  (The Python dict has
exactly the four valid statuses as keys; orders always carry a valid
status, so the total function returning `[]` elsewhere is only ever
applied on the dict's domain in the verified statements.) -/
def VALID_TRANSITIONS (s : Str) : List Str :=
  if s = str "new" then [str "preparing", str "canceled"]
  else if s = str "preparing" then [str "delivered", str "canceled"]
  else []

/-- The two final statuses tested by `current_status in ["delivered", "canceled"]`. -/
def FINAL_STATUSES : List Str := [str "delivered", str "canceled"]

/-- The storage collaborator's backing collection: records keyed by
`order_id` (the JSON array of order dicts, in file order). -/
abbrev Storage := List (Str × Order)

/-- `storage.get_order(id)`: first record whose `order_id` matches. -/
def getOrder (st : Storage) (id : Str) : Option Order := List.lookup id st

/-- `storage.save_order(order)`: upsert — replace the first record with
the same `order_id` in place, else append. -/
def saveOrder : Storage → Order → Storage
  | [], o => [(o.order_id, o)]
  | (k, v) :: rest, o =>
    if k = o.order_id then (k, o) :: rest else (k, v) :: saveOrder rest o

/-- The order mutation performed by a legal status update: overwrite
`status` and append `(timestamp, new_status, note)` to `status_history`. -/
def applyTransition (o : Order) (status : Str) (note : Option Str) (timestamp : Str) : Order :=
  { o with status := status, status_history := o.status_history ++ [(timestamp, status, note)] }

/-- The validation-and-mutation core of `_process_single_update` (after
the order has been fetched): `none` models the rejected paths
("already in final state", "invalid transition"), where nothing is
mutated or saved.  Orders always carry `status_history` (the
constructor seeds it), so the `hasattr` compatibility branch is inert. -/
def updateOrderStatus (o : Order) (status : Str) (note : Option Str) (timestamp : Str) :
    Option Order :=
  if o.status ∈ FINAL_STATUSES then none
  else if status ∈ VALID_TRANSITIONS o.status then some (applyTransition o status note timestamp)
  else none

/-- `_process_single_update` at the storage level: the storage after the
command (unchanged on "not found" and on every rejected transition; the
updated order saved otherwise). -/
def processSingleUpdate (st : Storage) (id status : Str) (note : Option Str)
    (timestamp : Str) : Storage :=
  match getOrder st id with
  | none => st
  | some o =>
    match updateOrderStatus o status note timestamp with
    | none => st
    | some o2 => saveOrder st o2

/-- `_process_rollback` on the fetched order: requires more than one
history entry ("no previous status" otherwise), pops the most recent
entry and restores `status` from the new last entry. -/
def rollbackOrder (o : Order) : Option Order :=
  if o.status_history.length ≤ 1 then none
  else
    match o.status_history.dropLast.getLast? with
    | none => none
    | some prev => some { o with status := prev.2.1, status_history := o.status_history.dropLast }

/-- `_process_rollback` at the storage level. -/
def processRollback (st : Storage) (id : Str) : Storage :=
  match getOrder st id with
  | none => st
  | some o =>
    match rollbackOrder o with
    | none => st
    | some o2 => saveOrder st o2

/-- Per-order outcome of the batch update, as printed per order. -/
inductive BatchOutcome where
  | updated
  | invalidTransition
  | alreadyFinal
  | notFound
deriving DecidableEq, Repr

/-- The `results` dict of `_process_batch_update` — note it has exactly
three buckets; "not found" orders are printed but never recorded here. -/
structure BatchResults where
  updated : List Str
  invalid_transition : List Str
  already_final : List Str
deriving DecidableEq, Repr

/-- `_process_batch_update`: processes the ids in order against the
evolving storage; returns the `results` dict (whose three list lengths
are the printed summary), the final storage, and the sequence of
per-order outcomes (the per-order console messages). -/
def processBatchUpdate : Storage → List Str → Str → Option Str → Str →
    BatchResults × Storage × List (Str × BatchOutcome)
  | st, [], _, _, _ => (⟨[], [], []⟩, st, [])
  | st, id :: rest, status, note, ts =>
    match getOrder st id with
    | none =>
      let r := processBatchUpdate st rest status note ts
      (r.1, r.2.1, (id, .notFound) :: r.2.2)
    | some o =>
      if o.status ∈ FINAL_STATUSES then
        let r := processBatchUpdate st rest status note ts
        ({ r.1 with already_final := id :: r.1.already_final }, r.2.1,
          (id, .alreadyFinal) :: r.2.2)
      else if status ∈ VALID_TRANSITIONS o.status then
        let st2 := saveOrder st (applyTransition o status note ts)
        let r := processBatchUpdate st2 rest status note ts
        ({ r.1 with updated := id :: r.1.updated }, r.2.1, (id, .updated) :: r.2.2)
      else
        let r := processBatchUpdate st rest status note ts
        ({ r.1 with invalid_transition := id :: r.1.invalid_transition }, r.2.1,
          (id, .invalidTransition) :: r.2.2)

/-- The outcome one id receives when processed alone against a storage
snapshot (used to state that batch processing is per-order independent). -/
def pureBatchOutcome (st : Storage) (status id : Str) : BatchOutcome :=
  match getOrder st id with
  | none => .notFound
  | some o =>
    if o.status ∈ FINAL_STATUSES then .alreadyFinal
    else if status ∈ VALID_TRANSITIONS o.status then .updated
    else .invalidTransition

/-- The bucket labels whose counts the batch summary prints — the
claim-relevant observable: `not_found` is absent. -/
def batchSummaryLabels : List Str :=
  [str "updated", str "invalid_transition", str "already_final"]

/-! ## Filter/query engine (`commands/view.py`) -/

/-- The filter criteria struct assembled from the CLI arguments. -/
structure ViewCriteria where
  status : Option Str
  active_only : Bool
  from_date : Option Str
  to_date : Option Str
  today : Bool
  dish : Option Str
  customer : Option Str
  tag : Option Str
  with_notes : Bool
  without_notes : Bool
deriving DecidableEq, Repr

/-- `strptime(s, "%Y-%m-%d").date()` as a day ordinal. -/
def parseDateOnly (s : Str) : Option Nat :=
  (parseDate s).map (fun x => toOrdinal x.1 x.2.1 x.2.2)

/-- The per-order loop of `ViewCommand._apply_filters`, with the date
bounds already resolved to day ordinals.  The checks run in source
order: status, active-only, `order.has_dish`, timestamp parse (silently
excluding unparseable orders), date range — and then the second dish
check, which reads the nonexistent attribute `order.dish_names` and
therefore raises `AttributeError` (modelled as `.error`) for the first
order that got this far with a dish filter active. -/
def applyFiltersLoop (c : ViewCriteria) (fromD toD : Option Nat) :
    List Order → Except Str (List Order)
  | [] => .ok []
  | o :: rest =>
    if (match c.status with | some s => o.status ≠ s | none => false : Bool) then
      applyFiltersLoop c fromD toD rest
    else if c.active_only = true ∧ o.status = str "canceled" then
      applyFiltersLoop c fromD toD rest
    else if (match c.dish with | some dn => !o.has_dish dn | none => false : Bool) then
      applyFiltersLoop c fromD toD rest
    else
      match parseIso o.order_time with
      | none => applyFiltersLoop c fromD toD rest
      | some dt =>
        if (match fromD with | some f => decide (dt.dateOrdinal < f) | none => false : Bool) then
          applyFiltersLoop c fromD toD rest
        else if (match toD with | some t => decide (t < dt.dateOrdinal) | none => false : Bool) then
          applyFiltersLoop c fromD toD rest
        else if c.dish.isSome then .error (str "AttributeError: dish_names")
        else if (match c.customer with
                 | some cu => !strContains (strLower o.customer_name) (strLower cu)
                 | none => false : Bool) then
          applyFiltersLoop c fromD toD rest
        else if (match c.tag with
                 | some tg => !o.tags.any (fun t => strContains (strLower t) (strLower tg))
                 | none => false : Bool) then
          applyFiltersLoop c fromD toD rest
        else if c.with_notes = true ∧ strTrim o.notes = [] then
          applyFiltersLoop c fromD toD rest
        else if c.without_notes = true ∧ strTrim o.notes ≠ [] then
          applyFiltersLoop c fromD toD rest
        else
          (applyFiltersLoop c fromD toD rest).map (o :: ·)

/-- `ViewCommand._apply_filters`: resolves `--today`/`--from-date`/
`--to-date` (returning the empty result on a malformed date string, as
the code does) and runs the per-order loop. -/
def applyFilters (todayOrd : Nat) (orders : List Order) (c : ViewCriteria) :
    Except Str (List Order) :=
  if c.today then applyFiltersLoop c (some todayOrd) (some todayOrd) orders
  else
    match c.from_date with
    | some fs =>
      match parseDateOnly fs with
      | none => .ok []
      | some f =>
        match c.to_date with
        | some ts0 =>
          match parseDateOnly ts0 with
          | none => .ok []
          | some t => applyFiltersLoop c (some f) (some t) orders
        | none => applyFiltersLoop c (some f) none orders
    | none =>
      match c.to_date with
      | some ts0 =>
        match parseDateOnly ts0 with
        | none => .ok []
        | some t => applyFiltersLoop c none (some t) orders
      | none => applyFiltersLoop c none none orders

/-- `math.ceil(count / page_size)` for `page_size ≥ 1`. -/
def totalPagesOf (count page_size : Nat) : Nat := (count + page_size - 1) / page_size

/-- Outcome of the pagination block of `ViewCommand.execute`: either the
error reporting the maximum valid page, or the selected page. -/
inductive PageResult where
  | pageError (maxPage : Nat)
  | page (orders : List Order)
deriving DecidableEq, Repr

/-- The orders shown by a pagination outcome (none on the error path). -/
def PageResult.shown : PageResult → List Order
  | .pageError _ => []
  | .page l => l

/-- The pagination block of `ViewCommand.execute` (lines 266–281),
reached with `page ≥ 1` and `page_size ≥ 1`:
`total_pages = ceil(count / page_size)`; a page beyond it is an error
reporting the maximum; otherwise the slice
`[(page-1)*page_size : page*page_size]`. -/
def paginate (l : List Order) (page page_size : Nat) : PageResult :=
  let total_pages := totalPagesOf l.length page_size
  if page > total_pages then .pageError total_pages
  else .page ((l.drop ((page - 1) * page_size)).take page_size)

/-- Python dict accumulation `stats[k]['count'] += 1; stats[k]['revenue'] += amt`
on an insertion-ordered dict (append on first touch). -/
def dictAddStat (k : Str) (amt : ℚ) : List (Str × Nat × ℚ) → List (Str × Nat × ℚ)
  | [] => [(k, 1, amt)]
  | (k0, c0, r0) :: t =>
    if k0 = k then (k0, c0 + 1, r0 + amt) :: t else (k0, c0, r0) :: dictAddStat k amt t

/-- The `tag_stats` dict built by `_display_tag_revenue_breakdown`:
keyed by the tag string exactly as stored (no case folding), each
order adding its full `order_total` once per tag occurrence. -/
def tagRevenueBreakdown (orders : List Order) : List (Str × Nat × ℚ) :=
  orders.foldl (fun acc o => o.tags.foldl (fun a t => dictAddStat t o.order_total a) acc) []

/-- The `tag_data` dict built by `_display_top_tags`: keyed by
`tag.lower().strip()` (skipping tags that normalize to empty), each
order adding its full `order_total` once per tag occurrence. -/
def topTagsAgg (orders : List Order) : List (Str × Nat × ℚ) :=
  orders.foldl (fun acc o =>
    o.tags.foldl (fun a t =>
      let nt := strTrim (strLower t)
      if nt = [] then a else dictAddStat nt o.order_total a) acc) []

/-- Revenue recorded for a key in a tag-stats dict (0 when absent). -/
def revenueOf (k : Str) (m : List (Str × Nat × ℚ)) : ℚ :=
  ((List.lookup k m).map Prod.snd).getD 0

/-! ## Duplicate-detection engine (`commands/check_duplicates.py`) -/

/-- The parameters `_find_duplicate_groups` consumes. -/
structure DupArgs where
  time_window : Nat
  ignore_status : Bool
  ignore_total : Bool
  exact_match_only : Bool
deriving DecidableEq, Repr

/-- Python dict accumulation `result[name] += qty` (append on first touch). -/
def dictAddNat (k : Str) (v : Nat) : List (Str × Nat) → List (Str × Nat)
  | [] => [(k, v)]
  | (k0, v0) :: t => if k0 = k then (k0, v0 + v) :: t else (k0, v0) :: dictAddNat k v t

/-- `CheckDuplicatesCommand._normalize_dishes`: name → summed quantity,
keyed by `name.lower().strip()`. -/
def normalizeDishes (dishes : List Dish) : List (Str × Nat) :=
  dishes.foldl (fun acc d => dictAddNat (strTrim (strLower d.name)) d.quantity acc) []

/-- `CheckDuplicatesCommand._compare_dishes` (orders always carry
`dishes`, so the `hasattr` fallback is inert): exact mode compares the
normalized quantity maps, relaxed mode only the key sets. -/
def compareDishes (o1 o2 : Order) (exact_match : Bool) : Bool :=
  let d1 := normalizeDishes o1.dishes
  let d2 := normalizeDishes o2.dishes
  if exact_match then
    d1.length == d2.length && d1.all (fun p => List.lookup p.1 d2 == some p.2)
  else
    d1.all (fun p => (d2.map Prod.fst).contains p.1) &&
      d2.all (fun p => (d1.map Prod.fst).contains p.1)

/-- The per-pair duplicate test of the inner window loop: dish match,
and in exact mode additionally total (within 0.01) and status equality
unless explicitly ignored. -/
def isDuplicatePair (args : DupArgs) (o1 o2 : Order) : Bool :=
  let dishes_match := compareDishes o1 o2 args.exact_match_only
  let total_match :=
    args.ignore_total || decide (|o1.order_total - o2.order_total| ≤ (1 : ℚ) / 100)
  let status_match := args.ignore_status || o1.status == o2.status
  dishes_match && (!args.exact_match_only || (total_match && status_match))

/-- The inner `while j` loop: scan forward from the anchor, stop at the
first order past the time window (times are microseconds), collect the
orders that test as duplicates of the anchor. -/
def collectWindow (args : DupArgs) (anchor : Order) (anchorT : Int) :
    List (Order × Int) → List Order
  | [] => []
  | (o, t) :: rest =>
    if t - anchorT > (args.time_window : Int) * 60 * 1000000 then []
    else if isDuplicatePair args anchor o then o :: collectWindow args anchor anchorT rest
    else collectWindow args anchor anchorT rest

/-- The outer `while i` loop over one customer's time-sorted orders:
every index is an anchor (the index advances by one whether or not a
group was emitted), and a group is emitted when the anchor's window
collected at least one duplicate. -/
def scanGroups (args : DupArgs) : List (Order × Int) → List (List Order)
  | [] => []
  | (o, t) :: rest =>
    let grp := collectWindow args o t rest
    if grp = [] then scanGroups args rest
    else (o :: grp) :: scanGroups args rest

/-- Pair each order with its parsed timestamp; `none` if any timestamp
is unparseable (the Python sort then raises and the customer is
skipped). -/
def attachTimes : List Order → Option (List (Order × Int))
  | [] => some []
  | o :: rest =>
    match parseIso o.order_time with
    | none => none
    | some dt => (attachTimes rest).map (fun l => (o, (dt.toMicros : Int)) :: l)

/-- First-occurrence iteration order of `defaultdict` keys. -/
def dedupKeepFirst : List Str → List Str
  | [] => []
  | k :: t => k :: (dedupKeepFirst t).filter (· ≠ k)

/-- `CheckDuplicatesCommand._find_duplicate_groups`: group orders by
lowercased customer name (in first-appearance order), skip customers
with a single order or an unparseable timestamp, sort each customer's
orders by time (Python's sort is stable; `insertionSort` with `≤` on
the key is the same stable sort), and run the sliding-anchor scan. -/
def findDuplicateGroups (args : DupArgs) (orders : List Order) : List (List Order) :=
  (dedupKeepFirst (orders.map (fun o => strLower o.customer_name))).flatMap (fun key =>
    let cust := orders.filter (fun o => strLower o.customer_name == key)
    if cust.length ≤ 1 then []
    else
      match attachTimes cust with
      | none => []
      | some pairs => scanGroups args (List.insertionSort (fun a b => a.2 ≤ b.2) pairs))

/-! ## Concrete fixtures used by witnesses and counterexamples -/

/-- A well-formed order in status `new` with one history entry. -/
def exNewOrder : Order :=
  { order_id := str "aaaaaaaa-aaaa-4aaa-8aaa-aaaaaaaaaaaa"
    customer_name := str "Bob"
    dishes := [⟨str "Pizza", 1⟩]
    order_total := 10
    status := str "new"
    order_time := str "2024-01-01T10:00:00"
    tags := []
    notes := []
    status_history := [(str "2024-01-01T10:00:00", str "new", none)]
    delivery_info := none
    assignment_history := [] }

/-- A one-order storage holding `exNewOrder`. -/
def exStorage : Storage := [(exNewOrder.order_id, exNewOrder)]

/-! ## C1 — single-order status update -/

/-- C1: for every stored order and requested status, the single-order
update applies the change iff the requested status is in the transition
table for the current status; on an illegal request (including a final
current status, whose transition list is empty) nothing is mutated and
the storage is left untouched (no save); on a legal request the entry
`(timestamp, status, note)` is appended to `status_history`, `status`
is overwritten, and the updated order is saved. -/
theorem single_update_transition_contract
    (st : Storage) (id s : Str) (note : Option Str) (ts : Str) (o : Order)
    (hget : getOrder st id = some o) (hvalid : o.status ∈ VALID_STATUSES) :
    (s ∈ VALID_TRANSITIONS o.status →
      updateOrderStatus o s note ts =
        some { o with status := s, status_history := o.status_history ++ [(ts, s, note)] } ∧
      processSingleUpdate st id s note ts =
        saveOrder st { o with status := s, status_history := o.status_history ++ [(ts, s, note)] }) ∧
    (s ∉ VALID_TRANSITIONS o.status →
      updateOrderStatus o s note ts = none ∧
      processSingleUpdate st id s note ts = st) := by
  have hupd : ∀ r, updateOrderStatus o s note ts = r →
      processSingleUpdate st id s note ts =
        (match r with | none => st | some o2 => saveOrder st o2) := by
    intro r hr
    simp only [processSingleUpdate, hget, hr]
  constructor
  · intro hmem
    have hnotfinal : o.status ∉ FINAL_STATUSES := by
      intro hfin
      have hempty : VALID_TRANSITIONS o.status = [] := by
        simp only [FINAL_STATUSES, List.mem_cons, List.not_mem_nil, or_false] at hfin
        rcases hfin with h | h <;> rw [h] <;> decide
      rw [hempty] at hmem
      exact List.not_mem_nil s hmem
    have h1 : updateOrderStatus o s note ts =
        some { o with status := s, status_history := o.status_history ++ [(ts, s, note)] } := by
      unfold updateOrderStatus applyTransition
      rw [if_neg hnotfinal, if_pos hmem]
    exact ⟨h1, hupd _ h1⟩
  · intro hmem
    have h1 : updateOrderStatus o s note ts = none := by
      unfold updateOrderStatus
      by_cases hf : o.status ∈ FINAL_STATUSES
      · rw [if_pos hf]
      · rw [if_neg hf, if_neg hmem]
    exact ⟨h1, hupd _ h1⟩

/-- C1 witness: on the concrete one-order storage, `new → preparing` is
applied and saved, while `new → delivered` is rejected with the storage
untouched. -/
theorem single_update_transition_contract_witness :
    (updateOrderStatus exNewOrder (str "preparing") none (str "2024-01-01T11:00:00") =
      some { exNewOrder with status := str "preparing", status_history := exNewOrder.status_history ++ [(str "2024-01-01T11:00:00", str "preparing", none)] } ∧
     processSingleUpdate exStorage exNewOrder.order_id (str "preparing") none
        (str "2024-01-01T11:00:00") =
      saveOrder exStorage { exNewOrder with status := str "preparing", status_history := exNewOrder.status_history ++ [(str "2024-01-01T11:00:00", str "preparing", none)] }) ∧
    (updateOrderStatus exNewOrder (str "delivered") none (str "2024-01-01T11:00:00") = none ∧
     processSingleUpdate exStorage exNewOrder.order_id (str "delivered") none
        (str "2024-01-01T11:00:00") = exStorage) :=
  ⟨(single_update_transition_contract exStorage exNewOrder.order_id (str "preparing") none
      (str "2024-01-01T11:00:00") exNewOrder (by decide) (by decide)).1
      (by decide),
   (single_update_transition_contract exStorage exNewOrder.order_id (str "delivered") none
      (str "2024-01-01T11:00:00") exNewOrder (by decide) (by decide)).2
      (by decide)⟩

/-! ## C2 — rollback -/

/-- A status with a legal outgoing transition is not final (the final
statuses have empty transition lists). -/
theorem notFinal_of_transition (st0 s : Str) (h : s ∈ VALID_TRANSITIONS st0) :
    st0 ∉ FINAL_STATUSES := by
  intro hfin
  have hempty : VALID_TRANSITIONS st0 = [] := by
    simp only [FINAL_STATUSES, List.mem_cons, List.not_mem_nil, or_false] at hfin
    rcases hfin with h0 | h0 <;> rw [h0] <;> decide
  rw [hempty] at h
  exact List.not_mem_nil s h

/-- C2: with more than one history entry, rollback pops the most recent
entry and sets `status` to the status of the new last entry; with at
most one entry it fails ("no previous status") and the storage is left
unchanged; and rollback exactly inverts a legal transition — applying a
legal transition and rolling back restores the original order (in
particular the pre-transition status and history length). -/
theorem rollback_pops_and_inverts :
    (∀ o : Order, 1 < o.status_history.length →
      ∃ prev, o.status_history.dropLast.getLast? = some prev ∧
        rollbackOrder o =
          some { o with status := prev.2.1, status_history := o.status_history.dropLast }) ∧
    (∀ o : Order, o.status_history.length ≤ 1 → rollbackOrder o = none) ∧
    (∀ (st : Storage) (id : Str) (o : Order), getOrder st id = some o →
      o.status_history.length ≤ 1 → processRollback st id = st) ∧
    (∀ (o : Order) (s : Str) (note : Option Str) (ts : Str),
      o.status_history.getLast?.map (fun e => e.2.1) = some o.status →
      s ∈ VALID_TRANSITIONS o.status →
      updateOrderStatus o s note ts = some (applyTransition o s note ts) ∧
      rollbackOrder (applyTransition o s note ts) = some o) := by
  have hfail : ∀ o : Order, o.status_history.length ≤ 1 → rollbackOrder o = none := by
    intro o h
    unfold rollbackOrder
    rw [if_pos h]
  refine ⟨?_, hfail, ?_, ?_⟩
  · intro o h
    have hne : o.status_history.dropLast ≠ [] := by
      intro hnil
      have hlen := congrArg List.length hnil
      rw [List.length_dropLast] at hlen
      simp only [List.length_nil] at hlen
      omega
    obtain ⟨prev, hprev⟩ :=
      Option.isSome_iff_exists.mp ((List.getLast?_isSome).mpr hne)
    refine ⟨prev, hprev, ?_⟩
    unfold rollbackOrder
    rw [if_neg (by omega), hprev]
  · intro st id o hget h
    simp only [processRollback, hget, hfail o h]
  · intro o s note ts hlast hmem
    obtain ⟨e, he, hes⟩ := Option.map_eq_some'.mp hlast
    have hne : o.status_history ≠ [] := by
      intro hnil
      rw [hnil] at he
      simp at he
    have hpos : 0 < o.status_history.length := List.length_pos.mpr hne
    have hupd : updateOrderStatus o s note ts = some (applyTransition o s note ts) := by
      unfold updateOrderStatus
      rw [if_neg (notFinal_of_transition o.status s hmem), if_pos hmem]
    refine ⟨hupd, ?_⟩
    unfold rollbackOrder applyTransition
    simp only [List.length_append, List.length_singleton, List.dropLast_concat]
    rw [if_neg (by omega), he]
    cases o
    simp only at hes ⊢
    rw [hes]

/-- C2 witness: on the concrete order, applying `new → preparing` and
rolling back returns exactly the original order, and rollback on the
single-entry history fails. -/
theorem rollback_pops_and_inverts_witness :
    rollbackOrder
        (applyTransition exNewOrder (str "preparing") none (str "2024-01-01T11:00:00")) =
      some exNewOrder ∧
    rollbackOrder exNewOrder = none :=
  ⟨(rollback_pops_and_inverts.2.2.2 exNewOrder (str "preparing") none
      (str "2024-01-01T11:00:00") (by decide) (by decide)).2,
   rollback_pops_and_inverts.2.1 exNewOrder (by decide)⟩

/-! ## C3 — proportional dish revenue -/

/-- The order of the spec scenario: constructed with
`dishes="Pizza:2,Soda:1"` and `order_total=30.00` (remaining fields as
the constructor fills them). -/
def scenarioRevenueOrder : Order :=
  { order_id := str "bbbbbbbb-bbbb-4bbb-8bbb-bbbbbbbbbbbb"
    customer_name := str "Alice"
    dishes := parseDishes (.text (str "Pizza:2,Soda:1"))
    order_total := 30
    status := str "new"
    order_time := str "2024-01-02T09:00:00"
    tags := []
    notes := []
    status_history := [(str "2024-01-02T09:00:00", str "new", none)]
    delivery_info := none
    assignment_history := [] }

/-- Looking up the key just written by a Python dict assignment. -/
theorem lookup_dictSet_self (k : Str) (v : ℚ) (m : List (Str × ℚ)) :
    List.lookup k (dictSet k v m) = some v := by
  induction m with
  | nil => simp [dictSet, List.lookup]
  | cons p t ih =>
    obtain ⟨k0, v0⟩ := p
    by_cases h : k0 = k
    · simp [dictSet, h, List.lookup]
    · simp only [dictSet, if_neg h, List.lookup,
        beq_eq_false_iff_ne.mpr (Ne.symm h)]
      exact ih

/-- A Python dict assignment leaves other keys' lookups unchanged. -/
theorem lookup_dictSet_other (k q : Str) (hne : q ≠ k) (v : ℚ) (m : List (Str × ℚ)) :
    List.lookup q (dictSet k v m) = List.lookup q m := by
  induction m with
  | nil => simp [dictSet, List.lookup, beq_eq_false_iff_ne.mpr hne]
  | cons p t ih =>
    obtain ⟨k0, v0⟩ := p
    by_cases h : k0 = k
    · subst h
      simp only [dictSet, if_pos rfl, List.lookup, beq_eq_false_iff_ne.mpr hne]
    · simp only [dictSet, if_neg h, List.lookup]
      by_cases h2 : q = k0
      · simp only [beq_iff_eq.mpr h2]
      · simp only [beq_eq_false_iff_ne.mpr h2]
        exact ih

/-- A dict-building fold over dishes whose names avoid `k` does not
change the lookup at `k`. -/
theorem lookup_revenue_fold_notmem (f : Dish → ℚ) :
    ∀ (ds : List Dish) (acc : List (Str × ℚ)) (k : Str), k ∉ ds.map Dish.name →
      List.lookup k (ds.foldl (fun a x => dictSet x.name (f x) a) acc) = List.lookup k acc := by
  intro ds
  induction ds with
  | nil => intro acc k _; rfl
  | cons x t ih =>
    intro acc k hk
    simp only [List.map_cons, List.mem_cons, not_or] at hk
    rw [List.foldl_cons, ih (dictSet x.name (f x) acc) k hk.2]
    exact lookup_dictSet_other x.name k hk.1 (f x) acc

/-- Looking up a dish's name in the revenue fold (names pairwise
distinct). -/
theorem lookup_revenue_fold (f : Dish → ℚ) :
    ∀ (ds : List Dish) (acc : List (Str × ℚ)) (d : Dish), d ∈ ds →
      (ds.map Dish.name).Nodup →
      List.lookup d.name (ds.foldl (fun a x => dictSet x.name (f x) a) acc) = some (f d) := by
  intro ds
  induction ds with
  | nil => intro acc d hd _; exact absurd hd (List.not_mem_nil d)
  | cons x t ih =>
    intro acc d hd hnodup
    simp only [List.map_cons, List.nodup_cons] at hnodup
    rw [List.foldl_cons]
    rcases List.mem_cons.mp hd with h | h
    · subst h
      rw [lookup_revenue_fold_notmem f t _ d.name hnodup.1]
      exact lookup_dictSet_self d.name (f d) acc
    · exact ih _ d h hnodup.2

/-- A duplicate-dish order constructed from `"Pizza:1,Pizza:2"` with
`order_total = 30.00` (duplicate dish names within an order are
permitted and not merged). -/
def exDupDishOrder : Order :=
  { order_id := str "88888888-8888-4888-8888-888888888881"
    customer_name := str "Dana"
    dishes := parseDishes (.text (str "Pizza:1,Pizza:2"))
    order_total := 30
    status := str "new"
    order_time := str "2024-01-06T09:00:00"
    tags := []
    notes := []
    status_history := [(str "2024-01-06T09:00:00", str "new", none)]
    delivery_info := none
    assignment_history := [] }

/-- C3 counterexample: on the order with dishes `Pizza:1, Pizza:2` and
total 30.00, `calculate_dish_revenue` — a Python dict comprehension
keyed by dish name, so a later duplicate name overwrites an earlier
one — returns the single entry `{Pizza: 20.00}`: the first dish is
never assigned its claimed share `30 * 1 / 3 = 10.00` (and the dict
values sum to 20, not to `order_total`), so the per-dish share formula
is false as a universal statement over all orders. -/
theorem dish_revenue_duplicate_names_counterexample :
    exDupDishOrder.dishes = [⟨str "Pizza", 1⟩, ⟨str "Pizza", 2⟩] ∧
    exDupDishOrder.get_total_quantity = 3 ∧
    exDupDishOrder.calculate_dish_revenue = [(str "Pizza", 20)] ∧
    exDupDishOrder.order_total * ((1 : Nat) : ℚ) / (exDupDishOrder.get_total_quantity : ℚ) = 10 ∧
    (10 : ℚ) ≠ 20 := by
  have hd : exDupDishOrder.dishes = [⟨str "Pizza", 1⟩, ⟨str "Pizza", 2⟩] := by decide
  have htq : exDupDishOrder.get_total_quantity = 3 := by decide
  have htot : exDupDishOrder.order_total = 30 := by norm_num [exDupDishOrder]
  refine ⟨hd, htq, ?_, ?_, by norm_num⟩
  · simp only [Order.calculate_dish_revenue, htq, hd, htot]
    norm_num [dictSet, str]
  · rw [htq, htot]
    norm_num

/-- C3 (amended): for every order whose dish names are pairwise
distinct, `calculate_dish_revenue` gives every dish the share
`order_total * dish_quantity / total_quantity_in_order`, where the
total is `get_total_quantity()`; with a duplicated dish name only the
last occurrence's share is kept (Python dict comprehension, see the
counterexample).  In particular the `"Pizza:2,Soda:1"`/`30.00`
scenario yields total quantity 3, 20.00 for Pizza and 10.00 for Soda. -/
theorem dish_revenue_proportional_split :
    (∀ o : Order, (o.dishes.map Dish.name).Nodup → (∀ d ∈ o.dishes, 1 ≤ d.quantity) →
      ∀ d ∈ o.dishes,
        List.lookup d.name o.calculate_dish_revenue =
          some (o.order_total * (d.quantity : ℚ) / (o.get_total_quantity : ℚ))) ∧
    scenarioRevenueOrder.get_total_quantity = 3 ∧
    List.lookup (str "Pizza") scenarioRevenueOrder.calculate_dish_revenue = some 20 ∧
    List.lookup (str "Soda") scenarioRevenueOrder.calculate_dish_revenue = some 10 := by
  have hgen : ∀ o : Order, (o.dishes.map Dish.name).Nodup →
      (∀ d ∈ o.dishes, 1 ≤ d.quantity) → ∀ d ∈ o.dishes,
      List.lookup d.name o.calculate_dish_revenue =
        some (o.order_total * (d.quantity : ℚ) / (o.get_total_quantity : ℚ)) := by
    intro o hnodup hq d hd
    have htq : 0 < o.get_total_quantity := by
      have h1 : d.quantity ≤ (o.dishes.map Dish.quantity).sum :=
        List.single_le_sum (fun x _ => Nat.zero_le x) _ (List.mem_map_of_mem Dish.quantity hd)
      have h2 := hq d hd
      unfold Order.get_total_quantity
      omega
    simp only [Order.calculate_dish_revenue]
    rw [if_neg (by omega)]
    rw [lookup_revenue_fold _ o.dishes [] d hd hnodup]
    congr 1
    ring
  have hpz : List.lookup (str "Pizza") scenarioRevenueOrder.calculate_dish_revenue =
      some 20 := by
    have h := hgen scenarioRevenueOrder (by decide) (by decide) ⟨str "Pizza", 2⟩ (by decide)
    rw [show scenarioRevenueOrder.get_total_quantity = 3 by decide] at h
    rw [h]
    norm_num [scenarioRevenueOrder]
  have hsd : List.lookup (str "Soda") scenarioRevenueOrder.calculate_dish_revenue =
      some 10 := by
    have h := hgen scenarioRevenueOrder (by decide) (by decide) ⟨str "Soda", 1⟩ (by decide)
    rw [show scenarioRevenueOrder.get_total_quantity = 3 by decide] at h
    rw [h]
    norm_num [scenarioRevenueOrder]
  exact ⟨hgen, by decide, hpz, hsd⟩

/-- C3 witness: the general share formula applied at the concrete
scenario order and its Pizza dish. -/
theorem dish_revenue_proportional_split_witness :
    List.lookup (str "Pizza") scenarioRevenueOrder.calculate_dish_revenue =
      some (scenarioRevenueOrder.order_total * ((2 : Nat) : ℚ) /
        (scenarioRevenueOrder.get_total_quantity : ℚ)) :=
  dish_revenue_proportional_split.1 scenarioRevenueOrder (by decide) (by decide)
    ⟨str "Pizza", 2⟩ (by decide)

/-! ## C5 — `to_dict` / `from_dict` round trip -/

/-- Splitting a separator-free string is the identity (one piece). -/
theorem strSplitOn_no_sep (sep : Char) : ∀ t : Str, sep ∉ t → strSplitOn sep t = [t] := by
  intro t
  induction t with
  | nil => intro _; rfl
  | cons c t0 ih =>
    intro h
    simp only [List.mem_cons, not_or] at h
    simp only [strSplitOn, if_neg (Ne.symm h.1), ih h.2]

/-- Splitting after appending a separator splits at that separator
first when the head piece is separator-free. -/
theorem strSplitOn_append_sep (sep : Char) : ∀ (t r : Str), sep ∉ t →
    strSplitOn sep (t ++ sep :: r) = t :: strSplitOn sep r := by
  intro t
  induction t with
  | nil =>
    intro r _
    simp [strSplitOn]
  | cons c t0 ih =>
    intro r h
    simp only [List.mem_cons, not_or] at h
    simp only [List.cons_append, strSplitOn, if_neg (Ne.symm h.1)]
    have happ : t0.append (sep :: r) = t0 ++ sep :: r := rfl
    rw [happ, ih r h.2]

/-- Comma-joining then comma-splitting (with the stripping and
empty-filtering `Order.__init__` applies) recovers a tag list whose
tags are trimmed, nonempty and comma-free. -/
theorem split_join_tags : ∀ tags : List Str,
    (∀ t ∈ tags, strTrim t = t ∧ t ≠ [] ∧ ',' ∉ t) →
    ((strSplitOn ',' (strJoin ',' tags)).map strTrim).filter (· ≠ []) = tags := by
  intro tags
  induction tags with
  | nil => intro _; rfl
  | cons t rest ih =>
    intro h
    have ht := h t (List.mem_cons_self t rest)
    cases rest with
    | nil =>
      rw [show strJoin ',' [t] = t from rfl, strSplitOn_no_sep ',' t ht.2.2]
      simp [ht.1, ht.2.1]
    | cons t2 rest2 =>
      rw [show strJoin ',' (t :: t2 :: rest2) = t ++ ',' :: strJoin ',' (t2 :: rest2) from rfl,
        strSplitOn_append_sep ',' t _ ht.2.2, List.map_cons, ht.1,
        List.filter_cons_of_pos (by simpa using ht.2.1)]
      exact congrArg (t :: ·) (ih fun x hx => h x (List.mem_cons_of_mem t hx))

/-- Re-parsing an order's dish list through the dict-list branch of
`_parse_dishes` is the identity (names already stripped, quantities
already ≥ 1). -/
theorem parseDishes_roundtrip : ∀ ds : List Dish,
    (∀ d ∈ ds, strTrim d.name = d.name ∧ 1 ≤ d.quantity) →
    parseDishes (.dicts (ds.map fun x => ⟨x.name, some (x.quantity : Int)⟩)) = ds := by
  intro ds
  induction ds with
  | nil => intro _; rfl
  | cons d t ih =>
    intro h
    obtain ⟨hn, hq⟩ := h d (List.mem_cons_self d t)
    have hqc : coerceQty (some (d.quantity : Int)) = d.quantity := by
      simp only [coerceQty]
      rw [if_neg (by omega)]
      exact Int.toNat_natCast d.quantity
    have ht := ih fun x hx => h x (List.mem_cons_of_mem d hx)
    simp only [parseDishes, List.map_cons, List.map_map] at ht ⊢
    rw [hn, hqc, ht]

/-- The invariants `Order.__init__` guarantees for every order it
constructs (and that deserialized orders therefore satisfy): stripped
nonempty customer name, at least one dish with stripped name and
quantity ≥ 1, positive total, valid status, canonical UUID id,
normalized timestamp, stripped nonempty tags. -/
def Order.WellFormed (o : Order) : Prop :=
  strTrim o.customer_name = o.customer_name ∧ o.customer_name ≠ [] ∧
  o.dishes ≠ [] ∧ (∀ d ∈ o.dishes, strTrim d.name = d.name ∧ 1 ≤ d.quantity) ∧
  0 < o.order_total ∧
  o.status ∈ VALID_STATUSES ∧
  uuidParse o.order_id = some o.order_id ∧
  normalizeOrderTime o.order_time = some o.order_time ∧
  (∀ t ∈ o.tags, strTrim t = t ∧ t ≠ [])

/-- What `from_dict ∘ to_dict` produces on any well-formed order: the
same order except that the tag list has been comma-joined and re-split
(the one field whose serialization is not injective). -/
theorem from_dict_to_dict_eval (now genId : Str) (o : Order) (h : o.WellFormed) :
    Order.from_dict now genId o.to_dict =
      some { o with tags := parseTags (some (.text (strJoin ',' o.tags))) } := by
  obtain ⟨hcn, hcne, hdne, hdish, htot, hstat, hid, htime, _⟩ := h
  have htne : o.order_time ≠ [] := by
    intro hnil
    rw [hnil] at htime
    simp [normalizeOrderTime, parseIso] at htime
  have hdishes := parseDishes_roundtrip o.dishes hdish
  have hhist : (o.status_history.map fun e => RawHist.three e.1 e.2.1 e.2.2).map upgradeHist =
      o.status_history := by
    rw [List.map_map]
    exact List.map_id o.status_history
  simp only [Order.from_dict, Order.to_dict, if_neg htne, mkOrder, hcn, if_neg hcne,
    hdishes, if_neg hdne, if_neg (not_le.mpr htot), if_neg (not_not_intro hstat), hid, htime,
    hhist, Option.getD_some]

/-- C5 (amended): `from_dict ∘ to_dict` recovers the order exactly
(hence with identical `order_id`, `dishes`, `order_total`, `status`,
`tags` and `notes`) for every well-formed order none of whose tags
contains a comma.  The comma restriction is necessary: `to_dict`
serializes tags as one comma-joined string (see the counterexample). -/
theorem from_dict_to_dict_roundtrip (now genId : Str) (o : Order) (h : o.WellFormed)
    (hcomma : ∀ t ∈ o.tags, ',' ∉ t) :
    Order.from_dict now genId o.to_dict = some o := by
  rw [from_dict_to_dict_eval now genId o h]
  obtain ⟨_, _, _, _, _, _, _, _, htags⟩ := h
  rw [show parseTags (some (.text (strJoin ',' o.tags))) = o.tags from
    split_join_tags o.tags fun t ht => ⟨(htags t ht).1, (htags t ht).2, hcomma t ht⟩]

/-- A well-formed order carrying the single tag `"a,b"` (the
constructor accepts it unchanged from a list input). -/
def exCommaTagOrder : Order :=
  { order_id := str "cccccccc-cccc-4ccc-8ccc-cccccccccccc"
    customer_name := str "Cara"
    dishes := [⟨str "Pizza", 1⟩]
    order_total := 5
    status := str "new"
    order_time := str "2024-01-03T08:00:00"
    tags := [str "a,b"]
    notes := []
    status_history := [(str "2024-01-03T08:00:00", str "new", none)]
    delivery_info := none
    assignment_history := [] }

/-- C5 counterexample: for the valid order tagged `"a,b"`, the round
trip succeeds but returns tags `["a", "b"]` instead of the original
`["a,b"]` — `to_dict` flattens the tag list into one comma-joined
string, so the round trip is not the identity on tags. -/
theorem from_dict_to_dict_roundtrip_counterexample :
    Order.WellFormed exCommaTagOrder ∧
    (Order.from_dict (str "2024-06-01T00:00:00") (str "gid") exCommaTagOrder.to_dict).map
        Order.tags = some [str "a", str "b"] ∧
    exCommaTagOrder.tags = [str "a,b"] := by
  have hwf : Order.WellFormed exCommaTagOrder :=
    ⟨by decide, by decide, by decide, by decide, by norm_num [exCommaTagOrder], by decide, by decide,
      by decide, by decide⟩
  refine ⟨hwf, ?_, by decide⟩
  rw [from_dict_to_dict_eval (str "2024-06-01T00:00:00") (str "gid") exCommaTagOrder hwf]
  decide

/-- C5 witness: the round trip applied to a concrete comma-free order. -/
theorem from_dict_to_dict_roundtrip_witness :
    Order.from_dict (str "2024-06-01T00:00:00") (str "gid") exNewOrder.to_dict =
      some exNewOrder :=
  from_dict_to_dict_roundtrip (str "2024-06-01T00:00:00") (str "gid") exNewOrder
    ⟨by decide, by decide, by decide, by decide, by norm_num [exNewOrder], by decide, by decide,
      by decide, by decide⟩ (by decide)

/-! ## C6 — bulk status update -/

/-- A successful `get_order` lookup is a record of the storage. -/
theorem getOrder_mem : ∀ (st : Storage) (id : Str) (o : Order),
    getOrder st id = some o → (id, o) ∈ st := by
  intro st
  induction st with
  | nil => intro id o h; simp [getOrder, List.lookup] at h
  | cons p t ih =>
    intro id o h
    obtain ⟨k, v⟩ := p
    by_cases hk : id = k
    · subst hk
      simp only [getOrder, List.lookup, beq_self_eq_true] at h
      obtain rfl : v = o := by simpa using h
      exact List.mem_cons_self _ _
    · simp only [getOrder, List.lookup, beq_eq_false_iff_ne.mpr hk] at h
      exact List.mem_cons_of_mem _ (ih id o h)

/-- Saving an order does not change lookups at other keys. -/
theorem getOrder_saveOrder_other : ∀ (st : Storage) (o : Order) (k : Str),
    k ≠ o.order_id → getOrder (saveOrder st o) k = getOrder st k := by
  intro st o
  induction st with
  | nil =>
    intro k hk
    simp [saveOrder, getOrder, List.lookup, beq_eq_false_iff_ne.mpr hk]
  | cons p t ih =>
    intro k hk
    obtain ⟨k0, v0⟩ := p
    by_cases h0 : k0 = o.order_id
    · subst h0
      simp only [saveOrder, if_pos rfl, getOrder, List.lookup,
        beq_eq_false_iff_ne.mpr hk]
    · simp only [saveOrder, if_neg h0, getOrder, List.lookup]
      by_cases h2 : k = k0
      · simp only [beq_iff_eq.mpr h2]
      · simp only [beq_eq_false_iff_ne.mpr h2]
        exact ih k hk

/-- Saving preserves the storage invariant that each record is keyed by
its own `order_id`. -/
theorem wf_saveOrder : ∀ (st : Storage) (o : Order),
    (∀ p ∈ st, Order.order_id p.2 = p.1) →
    ∀ p ∈ saveOrder st o, Order.order_id p.2 = p.1 := by
  intro st o
  induction st with
  | nil =>
    intro _ p hp
    simp only [saveOrder, List.mem_singleton] at hp
    rw [hp]
  | cons q t ih =>
    intro h p hp
    obtain ⟨k0, v0⟩ := q
    by_cases h0 : k0 = o.order_id
    · subst h0
      simp only [saveOrder, if_pos rfl] at hp
      cases hp with
      | head => rfl
      | tail _ h2 => exact h p (List.mem_cons_of_mem _ h2)
    · simp only [saveOrder, if_neg h0] at hp
      cases hp with
      | head => exact h (k0, v0) (List.mem_cons_self _ _)
      | tail _ h2 => exact ih (fun q hq => h q (List.mem_cons_of_mem _ hq)) p h2

/-- C6 (amended): every id in the batch is processed and classified
(one outcome per id, in order — one order's failure never blocks the
rest); the `results` summary counts exactly the three buckets
`updated` / `invalid_transition` / `already_final` (ids that were not
found are reported per-item but appear in no summary bucket); and under
the storage invariant, with distinct ids, every order's outcome is the
one it would receive alone against the starting snapshot (per-order
independence). -/
theorem batch_update_buckets_and_summary :
    (∀ (st : Storage) (ids : List Str) (s : Str) (note : Option Str) (ts : Str),
      ((processBatchUpdate st ids s note ts).2.2.map Prod.fst = ids) ∧
      (processBatchUpdate st ids s note ts).1.updated =
        ((processBatchUpdate st ids s note ts).2.2.filter
          (fun p => decide (p.2 = BatchOutcome.updated))).map Prod.fst ∧
      (processBatchUpdate st ids s note ts).1.invalid_transition =
        ((processBatchUpdate st ids s note ts).2.2.filter
          (fun p => decide (p.2 = BatchOutcome.invalidTransition))).map Prod.fst ∧
      (processBatchUpdate st ids s note ts).1.already_final =
        ((processBatchUpdate st ids s note ts).2.2.filter
          (fun p => decide (p.2 = BatchOutcome.alreadyFinal))).map Prod.fst) ∧
    (∀ (ids : List Str) (st : Storage) (s : Str) (note : Option Str) (ts : Str),
      (∀ p ∈ st, Order.order_id p.2 = p.1) → ids.Nodup →
      (processBatchUpdate st ids s note ts).2.2 =
        ids.map fun id => (id, pureBatchOutcome st s id)) := by
  constructor
  · intro st ids s note ts
    induction ids generalizing st with
    | nil => exact ⟨rfl, rfl, rfl, rfl⟩
    | cons id rest ih =>
      obtain ⟨ih1, ih2, ih3, ih4⟩ := ih st
      cases hg : getOrder st id with
      | none =>
        refine ⟨?_, ?_, ?_, ?_⟩ <;>
          simp [processBatchUpdate, hg, ih1, ih2, ih3, ih4]
      | some o =>
        by_cases hf : o.status ∈ FINAL_STATUSES
        · refine ⟨?_, ?_, ?_, ?_⟩ <;>
            simp [processBatchUpdate, hg, if_pos hf, ih1, ih2, ih3, ih4]
        · by_cases ht : s ∈ VALID_TRANSITIONS o.status
          · obtain ⟨jh1, jh2, jh3, jh4⟩ := ih (saveOrder st (applyTransition o s note ts))
            refine ⟨?_, ?_, ?_, ?_⟩ <;>
              simp [processBatchUpdate, hg, if_neg hf, if_pos ht, jh1, jh2, jh3, jh4]
          · refine ⟨?_, ?_, ?_, ?_⟩ <;>
              simp [processBatchUpdate, hg, if_neg hf, if_neg ht, ih1, ih2, ih3, ih4]
  · intro ids
    induction ids with
    | nil => intro st s note ts _ _; rfl
    | cons id rest ih =>
      intro st s note ts hwf hnodup
      obtain ⟨hnotin, hnodup2⟩ := List.nodup_cons.mp hnodup
      cases hg : getOrder st id with
      | none =>
        simp only [processBatchUpdate, hg, List.map_cons]
        rw [ih st s note ts hwf hnodup2]
        simp [pureBatchOutcome, hg]
      | some o =>
        by_cases hf : o.status ∈ FINAL_STATUSES
        · simp only [processBatchUpdate, hg, if_pos hf, List.map_cons]
          rw [ih st s note ts hwf hnodup2]
          simp [pureBatchOutcome, hg, if_pos hf]
        · by_cases ht : s ∈ VALID_TRANSITIONS o.status
          · have hoid : o.order_id = id := hwf (id, o) (getOrder_mem st id o hg)
            have hwf2 := wf_saveOrder st (applyTransition o s note ts) hwf
            simp only [processBatchUpdate, hg, if_neg hf, if_pos ht, List.map_cons]
            rw [ih (saveOrder st (applyTransition o s note ts)) s note ts hwf2 hnodup2]
            have hmapeq : rest.map
                (fun id2 => (id2,
                  pureBatchOutcome (saveOrder st (applyTransition o s note ts)) s id2)) =
                rest.map (fun id2 => (id2, pureBatchOutcome st s id2)) := by
              apply List.map_congr_left
              intro id2 hid2
              have hne : id2 ≠ (applyTransition o s note ts).order_id := by
                show id2 ≠ o.order_id
                rw [hoid]
                intro heq
                exact hnotin (heq ▸ hid2)
              simp only [pureBatchOutcome,
                getOrder_saveOrder_other st (applyTransition o s note ts) id2 hne]
            rw [hmapeq]
            simp [pureBatchOutcome, hg, if_neg hf, if_pos ht]
          · simp only [processBatchUpdate, hg, if_neg hf, if_neg ht, List.map_cons]
            rw [ih st s note ts hwf hnodup2]
            simp [pureBatchOutcome, hg, if_neg hf, if_neg ht]

/-- C6 counterexample: batch-updating a single nonexistent id yields a
`not_found` per-order outcome, yet the `results` dict — the summary
printed at the end — has only its three buckets all empty: no
`not_found` bucket is part of the reported summary counts. -/
theorem batch_update_not_found_not_counted :
    (processBatchUpdate [] [str "x"] (str "preparing") none (str "t")).2.2 =
      [(str "x", BatchOutcome.notFound)] ∧
    (processBatchUpdate [] [str "x"] (str "preparing") none (str "t")).1 =
      BatchResults.mk [] [] [] ∧
    str "not_found" ∉ batchSummaryLabels :=
  ⟨rfl, rfl, by decide⟩

/-- C6 witness: the independence part applied to a concrete two-id
batch (one updatable order, one missing id). -/
theorem batch_update_buckets_and_summary_witness :
    (processBatchUpdate exStorage [exNewOrder.order_id, str "missing"] (str "preparing")
        none (str "t")).2.2 =
      [(exNewOrder.order_id, BatchOutcome.updated), (str "missing", BatchOutcome.notFound)] :=
  (batch_update_buckets_and_summary.2 [exNewOrder.order_id, str "missing"] exStorage
    (str "preparing") none (str "t") (by decide) (by decide)).trans (by decide)


/-! ## C4 — pagination -/

/-- `ceil(count / ps)` pages of size `ps` cover `count` items. -/
theorem totalPagesOf_mul_ge (count ps : Nat) (h : 1 ≤ ps) :
    count ≤ totalPagesOf count ps * ps := by
  unfold totalPagesOf
  have h1 := Nat.div_add_mod (count + ps - 1) ps
  have h2 := Nat.mod_lt (count + ps - 1) (show 0 < ps by omega)
  rw [Nat.mul_comm]
  omega

/-- A nonempty listing needs at least one page. -/
theorem totalPagesOf_pos (count ps : Nat) (h : 1 ≤ ps) (hc : 1 ≤ count) :
    1 ≤ totalPagesOf count ps := by
  unfold totalPagesOf
  rw [Nat.le_div_iff_mul_le (show 0 < ps by omega)]
  omega

/-- One page fewer than `ceil(count / ps)` does not cover `count` items. -/
theorem totalPagesOf_pred_lt (count ps : Nat) (h : 1 ≤ ps) (hc : 1 ≤ count) :
    (totalPagesOf count ps - 1) * ps < count := by
  have h1 := Nat.div_add_mod (count + ps - 1) ps
  have h2 := Nat.mod_lt (count + ps - 1) (show 0 < ps by omega)
  unfold totalPagesOf
  rw [Nat.sub_mul, one_mul, Nat.mul_comm]
  omega

/-- The page count is exactly `ceil(count / page_size)`. -/
theorem totalPagesOf_eq_ceil (count ps : Nat) (h : 1 ≤ ps) :
    (totalPagesOf count ps : ℤ) = ⌈(count : ℚ) / (ps : ℚ)⌉ := by
  have hps0 : (0 : ℚ) < (ps : ℚ) := by
    exact_mod_cast Nat.lt_of_lt_of_le Nat.zero_lt_one h
  rcases Nat.eq_zero_or_pos count with hc | hc
  · subst hc
    simp [totalPagesOf, Nat.div_eq_of_lt (show ps - 1 < ps by omega)]
  · rw [eq_comm, Int.ceil_eq_iff]
    have hpos := totalPagesOf_pos count ps h hc
    constructor
    · rw [lt_div_iff₀ hps0]
      have hlt := totalPagesOf_pred_lt count ps h hc
      have h2 : ((totalPagesOf count ps : ℤ) : ℚ) - 1 =
          ((totalPagesOf count ps - 1 : Nat) : ℚ) := by
        rw [Nat.cast_sub hpos]
        push_cast
        ring
      rw [h2]
      exact_mod_cast hlt
    · rw [div_le_iff₀ hps0]
      have hge := totalPagesOf_mul_ge count ps h
      exact_mod_cast hge

/-- Concatenating the first `n` size-`ps` slices gives the first
`n * ps` elements. -/
theorem slices_flatten (ps : Nat) : ∀ (n : Nat) (l : List Order),
    ((List.range n).map (fun i => (l.drop (i * ps)).take ps)).flatten = l.take (n * ps) := by
  intro n
  induction n with
  | zero => intro l; simp
  | succ n ihn =>
    intro l
    rw [List.range_succ, List.map_append, List.flatten_append]
    simp only [List.map_cons, List.map_nil, List.flatten_cons, List.flatten_nil,
      List.append_nil]
    rw [ihn l, Nat.succ_mul, List.take_add]

/-- C4: with `page_size ≥ 1` over the (filtered, sorted) listing:
`total_pages = ceil(count / page_size)`; a page beyond `total_pages`
errors, reporting the valid maximum, and shows no orders; any other
page is the slice `[(page-1)*page_size, page*page_size)`; and
concatenating pages 1 through `total_pages` reproduces the whole list
exactly once. -/
theorem pagination_contract (l : List Order) (page ps : Nat) (hps : 1 ≤ ps) :
    ((totalPagesOf l.length ps : ℤ) = ⌈(l.length : ℚ) / (ps : ℚ)⌉) ∧
    (page > totalPagesOf l.length ps →
      paginate l page ps = .pageError (totalPagesOf l.length ps) ∧
      (paginate l page ps).shown = []) ∧
    (page ≤ totalPagesOf l.length ps →
      paginate l page ps = .page ((l.drop ((page - 1) * ps)).take ps)) ∧
    ((List.range (totalPagesOf l.length ps)).map
        (fun i => (paginate l (i + 1) ps).shown)).flatten = l := by
  refine ⟨totalPagesOf_eq_ceil l.length ps hps, ?_, ?_, ?_⟩
  · intro hgt
    have hp : paginate l page ps = .pageError (totalPagesOf l.length ps) := by
      unfold paginate
      rw [if_pos hgt]
    exact ⟨hp, by rw [hp]; rfl⟩
  · intro hle
    unfold paginate
    rw [if_neg (not_lt.mpr hle)]
  · have hshape : ∀ i ∈ List.range (totalPagesOf l.length ps),
        (paginate l (i + 1) ps).shown = (l.drop (i * ps)).take ps := by
      intro i hi
      have hi2 := List.mem_range.mp hi
      unfold paginate
      rw [if_neg (by omega)]
      simp [PageResult.shown]
    rw [List.map_congr_left hshape, slices_flatten ps (totalPagesOf l.length ps) l]
    exact List.take_of_length_le (totalPagesOf_mul_ge l.length ps hps)

/-- C4 witness: the whole contract applied to a concrete 3-order list
with `page_size = 2`: two total pages, page 3 is an error, page 2 is
the final slice, and the page concatenation returns the list. -/
theorem pagination_contract_witness :
    paginate [exNewOrder, exCommaTagOrder, scenarioRevenueOrder] 3 2 = .pageError 2 ∧
    paginate [exNewOrder, exCommaTagOrder, scenarioRevenueOrder] 2 2 =
      .page [scenarioRevenueOrder] ∧
    ((List.range (totalPagesOf 3 2)).map
        (fun i => (paginate [exNewOrder, exCommaTagOrder, scenarioRevenueOrder] (i + 1) 2).shown)).flatten =
      [exNewOrder, exCommaTagOrder, scenarioRevenueOrder] := by
  refine ⟨?_, ?_, ?_⟩
  · exact ((pagination_contract [exNewOrder, exCommaTagOrder, scenarioRevenueOrder] 3 2
      (by decide)).2.1 (by decide)).1
  · exact ((pagination_contract [exNewOrder, exCommaTagOrder, scenarioRevenueOrder] 2 2
      (by decide)).2.2.1 (by decide))
  · exact (pagination_contract [exNewOrder, exCommaTagOrder, scenarioRevenueOrder] 1 2
      (by decide)).2.2.2

/-! ## C10 — unparseable timestamps are always excluded -/

/-- Every order emitted by the filter loop passed the timestamp parse
(the parse runs before any date bound is consulted, so it filters even
when no date criterion is supplied). -/
theorem loop_parseable (c : ViewCriteria) (fromD toD : Option Nat) :
    ∀ (l res : List Order), applyFiltersLoop c fromD toD l = .ok res →
      ∀ o ∈ res, (parseIso o.order_time).isSome = true := by
  intro l
  induction l with
  | nil =>
    intro res h o ho
    simp only [applyFiltersLoop] at h
    obtain rfl : ([] : List Order) = res := by simpa using h
    simp at ho
  | cons o rest ih =>
    intro res h o2 ho2
    simp only [applyFiltersLoop] at h
    split at h
    · exact ih res h o2 ho2
    split at h
    · exact ih res h o2 ho2
    split at h
    · exact ih res h o2 ho2
    split at h
    · exact ih res h o2 ho2
    rename_i dt hparse
    split at h
    · exact ih res h o2 ho2
    split at h
    · exact ih res h o2 ho2
    split at h
    · simp at h
    split at h
    · exact ih res h o2 ho2
    split at h
    · exact ih res h o2 ho2
    split at h
    · exact ih res h o2 ho2
    split at h
    · exact ih res h o2 ho2
    cases hx : applyFiltersLoop c fromD toD rest with
    | error e =>
      rw [hx] at h
      simp [Except.map] at h
    | ok res2 =>
      rw [hx] at h
      simp only [Except.map] at h
      obtain rfl : o :: res2 = res := by simpa using h
      rcases List.mem_cons.mp ho2 with h1 | h1
      · subst h1
        rw [hparse]
        rfl
      · exact ih res2 hx o2 h1

/-- C10: whenever `_apply_filters` returns normally, every returned
order has a parseable `order_time` — orders with unparseable
timestamps are silently excluded even when no date criterion
(`--from-date`, `--to-date`, `--today`) is active. -/
theorem filtered_orders_have_parseable_times (todayOrd : Nat) (orders : List Order)
    (c : ViewCriteria) (res : List Order) (h : applyFilters todayOrd orders c = .ok res) :
    ∀ o ∈ res, (parseIso o.order_time).isSome = true := by
  unfold applyFilters at h
  split at h
  · exact loop_parseable c _ _ orders res h
  split at h
  · split at h
    · intro o ho
      obtain rfl : ([] : List Order) = res := by simpa using h
      simp at ho
    split at h
    · split at h
      · intro o ho
        obtain rfl : ([] : List Order) = res := by simpa using h
        simp at ho
      · exact loop_parseable c _ _ orders res h
    · exact loop_parseable c _ _ orders res h
  · split at h
    · split at h
      · intro o ho
        obtain rfl : ([] : List Order) = res := by simpa using h
        simp at ho
      · exact loop_parseable c _ _ orders res h
    · exact loop_parseable c _ _ orders res h

/-- An order whose `order_time` is not a timestamp at all. -/
def exBadTimeOrder : Order :=
  { order_id := str "dddddddd-dddd-4ddd-8ddd-dddddddddddd"
    customer_name := str "Dave"
    dishes := [⟨str "Soup", 1⟩]
    order_total := 7
    status := str "new"
    order_time := str "not-a-date"
    tags := []
    notes := []
    status_history := [(str "not-a-date", str "new", none)]
    delivery_info := none
    assignment_history := [] }

/-- Criteria with every filter off. -/
def noFilterCriteria : ViewCriteria :=
  { status := none, active_only := false, from_date := none, to_date := none,
    today := false, dish := none, customer := none, tag := none,
    with_notes := false, without_notes := false }

/-- C10 witness: with no criteria at all, the filter keeps exactly
`exNewOrder` (dropping the order with the unparseable timestamp), and
the kept order's timestamp parses. -/
theorem filtered_orders_have_parseable_times_witness :
    (parseIso exNewOrder.order_time).isSome = true :=
  filtered_orders_have_parseable_times 0 [exNewOrder, exBadTimeOrder] noFilterCriteria
    [exNewOrder] rfl exNewOrder (by decide)

/-! ## C7 — dish filter -/

/-- Criteria filtering only on a dish-name substring. -/
def dishCriteria : ViewCriteria :=
  { status := none, active_only := false, from_date := none, to_date := none,
    today := false, dish := some (str "piz"), customer := none, tag := none,
    with_notes := false, without_notes := false }

/-- C7 evaluation at the failing input: `has_dish` does match the
needle case-insensitively, but as soon as one order passes that check
(and the date checks) the second, stale dish filter reads the
nonexistent attribute `order.dish_names` and the whole filter raises
`AttributeError` instead of returning the matching orders; only a
collection with no match (or none that get that far) avoids the crash. -/
theorem dish_filter_crashes_on_match :
    exNewOrder.has_dish (str "piz") = true ∧
    applyFilters 0 [exNewOrder] dishCriteria = .error (str "AttributeError: dish_names") ∧
    applyFilters 0 [exBadTimeOrder] dishCriteria = .ok [] ∧
    applyFilters 0 [] dishCriteria = .ok [] := by
  exact ⟨by decide, rfl, rfl, rfl⟩

/-! ## C9 — tag revenue aggregation -/

/-- Effect of one dict accumulation step on a recorded revenue. -/
theorem revenueOf_dictAddStat (k q : Str) (amt : ℚ) :
    ∀ m : List (Str × Nat × ℚ),
      revenueOf q (dictAddStat k amt m) = revenueOf q m + (if q = k then amt else 0) := by
  intro m
  induction m with
  | nil =>
    by_cases h : q = k
    · simp [dictAddStat, revenueOf, List.lookup, beq_iff_eq.mpr h, h]
    · simp [dictAddStat, revenueOf, List.lookup, beq_eq_false_iff_ne.mpr h, h]
  | cons p t ih =>
    obtain ⟨k0, c0, r0⟩ := p
    by_cases h0 : k0 = k
    · subst h0
      by_cases h : q = k0
      · simp [dictAddStat, revenueOf, List.lookup, beq_iff_eq.mpr h, h]
      · simp [dictAddStat, revenueOf, List.lookup, beq_eq_false_iff_ne.mpr h, h]
    · simp only [dictAddStat, if_neg h0]
      by_cases h : q = k0
      · have hqk : q ≠ k := fun hqk => h0 (h.symm.trans hqk)
        simp [revenueOf, List.lookup, beq_iff_eq.mpr h, hqk]
      · simp only [revenueOf, List.lookup, beq_eq_false_iff_ne.mpr h] at ih ⊢
        exact ih

/-- One order's tag loop adds `order_total` to a key once per matching
tag occurrence (`_display_tag_revenue_breakdown`, raw keys). -/
theorem revenueOf_tags_fold (total : ℚ) (q : Str) :
    ∀ (tags : List Str) (acc : List (Str × Nat × ℚ)),
      revenueOf q (tags.foldl (fun a t => dictAddStat t total a) acc) =
        revenueOf q acc + (tags.count q : ℚ) * total := by
  intro tags
  induction tags with
  | nil => intro acc; simp
  | cons t ts ih =>
    intro acc
    rw [List.foldl_cons, ih (dictAddStat t total acc), revenueOf_dictAddStat t q total acc]
    by_cases h : q = t
    · rw [if_pos h, List.count_cons, if_pos (by simpa using h.symm)]
      push_cast
      ring
    · rw [if_neg h, List.count_cons, if_neg (by simpa using fun e => h (e.symm))]
      push_cast
      ring

/-- One order's tag loop in `_display_top_tags` adds `order_total` to a
(nonempty) normalized key once per tag occurrence normalizing to it. -/
theorem revenueOf_normtags_fold (total : ℚ) (q : Str) (hq : q ≠ []) :
    ∀ (tags : List Str) (acc : List (Str × Nat × ℚ)),
      revenueOf q (tags.foldl (fun a t =>
          if strTrim (strLower t) = [] then a else dictAddStat (strTrim (strLower t)) total a)
        acc) =
        revenueOf q acc + (tags.countP (fun t => strTrim (strLower t) == q) : ℚ) * total := by
  intro tags
  induction tags with
  | nil => intro acc; simp
  | cons t ts ih =>
    intro acc
    rw [List.foldl_cons]
    by_cases hz : strTrim (strLower t) = []
    · have hne : strTrim (strLower t) ≠ q := by
        rw [hz]
        exact Ne.symm hq
      rw [if_pos hz, ih acc, List.countP_cons,
        if_neg (by simp [beq_eq_false_iff_ne.mpr hne])]
      norm_num
    · rw [if_neg hz, ih (dictAddStat (strTrim (strLower t)) total acc),
        revenueOf_dictAddStat (strTrim (strLower t)) q total acc, List.countP_cons]
      by_cases h : strTrim (strLower t) = q
      · rw [if_pos h.symm, if_pos (beq_iff_eq.mpr h)]
        push_cast
        ring
      · rw [if_neg (fun e => h e.symm), if_neg (by simp [beq_eq_false_iff_ne.mpr h])]
        push_cast
        ring

/-- C9 (amended): in `_display_tag_revenue_breakdown` tags are
aggregated by the exact tag string — case-sensitively — while the
`--top-tags` report (`_display_top_tags`) aggregates on
`tag.lower().strip()`, case-insensitively; in both, every order
contributes its full `order_total` once per tag occurrence, so an order
carrying `k` distinct tags adds its total `k` times across the
reported per-tag revenues. -/
theorem tag_revenue_contract :
    (∀ (orders : List Order) (q : Str),
      revenueOf q (tagRevenueBreakdown orders) =
        ((orders.map (fun o => (o.tags.count q : ℚ) * o.order_total)).sum)) ∧
    (∀ (orders : List Order) (q : Str), q ≠ [] →
      revenueOf q (topTagsAgg orders) =
        ((orders.map (fun o =>
          (o.tags.countP (fun t => strTrim (strLower t) == q) : ℚ) * o.order_total)).sum)) := by
  constructor
  · intro orders q
    suffices hgen : ∀ (os : List Order) (acc : List (Str × Nat × ℚ)),
        revenueOf q (os.foldl
            (fun acc o => o.tags.foldl (fun a t => dictAddStat t o.order_total a) acc) acc) =
          revenueOf q acc + ((os.map (fun o => (o.tags.count q : ℚ) * o.order_total)).sum) by
      have h := hgen orders []
      simpa [tagRevenueBreakdown, revenueOf] using h
    intro os
    induction os with
    | nil => intro acc; simp
    | cons o os2 ih =>
      intro acc
      rw [List.foldl_cons, ih, revenueOf_tags_fold o.order_total q o.tags acc]
      simp only [List.map_cons, List.sum_cons]
      ring
  · intro orders q hq
    suffices hgen : ∀ (os : List Order) (acc : List (Str × Nat × ℚ)),
        revenueOf q (os.foldl (fun acc o => o.tags.foldl (fun a t =>
            if strTrim (strLower t) = [] then a
            else dictAddStat (strTrim (strLower t)) o.order_total a) acc) acc) =
          revenueOf q acc + ((os.map (fun o =>
            (o.tags.countP (fun t => strTrim (strLower t) == q) : ℚ) * o.order_total)).sum) by
      have h := hgen orders []
      simpa [topTagsAgg, revenueOf] using h
    intro os
    induction os with
    | nil => intro acc; simp
    | cons o os2 ih =>
      intro acc
      rw [List.foldl_cons, ih, revenueOf_normtags_fold o.order_total q hq o.tags acc]
      simp only [List.map_cons, List.sum_cons]
      ring

/-- An order tagged `"VIP"` (uppercase). -/
def exVipUpper : Order :=
  { order_id := str "eeeeeeee-eeee-4eee-8eee-eeeeeeeeeeee"
    customer_name := str "Eve"
    dishes := [⟨str "Cake", 1⟩]
    order_total := 10
    status := str "new"
    order_time := str "2024-01-05T10:00:00"
    tags := [str "VIP"]
    notes := []
    status_history := [(str "2024-01-05T10:00:00", str "new", none)]
    delivery_info := none
    assignment_history := [] }

/-- The same order shape tagged `"vip"` (lowercase). -/
def exVipLower : Order :=
  { exVipUpper with
    order_id := str "ffffffff-ffff-4fff-8fff-ffffffffffff"
    order_total := 20
    tags := [str "vip"] }

/-- C9 counterexample: `_display_tag_revenue_breakdown` keeps `"VIP"`
and `"vip"` — equal up to case — as two separate buckets with separate
revenues, so its aggregation is case-sensitive, not case-insensitive
as claimed. -/
theorem tag_breakdown_case_sensitive_counterexample :
    tagRevenueBreakdown [exVipUpper, exVipLower] =
      [(str "VIP", 1, 10), (str "vip", 1, 20)] ∧
    strLower (str "VIP") = strLower (str "vip") ∧
    str "VIP" ≠ str "vip" := by
  decide

/-- C9 witness: the case-insensitive `--top-tags` aggregation applied
to the two concrete orders at the nonempty normalized key `"vip"`. -/
theorem tag_revenue_contract_witness :
    revenueOf (str "vip") (topTagsAgg [exVipUpper, exVipLower]) =
      (([exVipUpper, exVipLower].map (fun o =>
        (o.tags.countP (fun t => strTrim (strLower t) == str "vip") : ℚ) * o.order_total)).sum) :=
  tag_revenue_contract.2 [exVipUpper, exVipLower] (str "vip") (by decide)

/-! ## C8 — duplicate detection -/

/-- Every group the anchor scan emits has the anchor plus at least one
collected duplicate. -/
theorem scanGroups_min_size (args : DupArgs) :
    ∀ (l : List (Order × Int)) (g : List Order), g ∈ scanGroups args l → 2 ≤ g.length := by
  intro l
  induction l with
  | nil => intro g hg; simp [scanGroups] at hg
  | cons p rest ih =>
    intro g hg
    obtain ⟨o, t⟩ := p
    simp only [scanGroups] at hg
    split at hg
    · exact ih g hg
    · rename_i hgrp
      rcases List.mem_cons.mp hg with h1 | h1
      · subst h1
        have hpos := List.length_pos.mpr hgrp
        simp only [List.length_cons]
        omega
      · exact ih g h1

/-- C8 (amended, first conjunct proved): every emitted duplicate group
contains at least 2 orders.  (The second half of the original claim —
an order appears in at most one group per scan pass — is refuted by the
overlap counterexample: the anchor index advances by one whether or not
a group was emitted, so windows overlap and an order can appear in one
group per anchor that reaches it.) -/
theorem duplicate_groups_min_size (args : DupArgs) (orders : List Order) :
    ∀ g ∈ findDuplicateGroups args orders, 2 ≤ g.length := by
  intro g hg
  simp only [findDuplicateGroups, List.mem_flatMap] at hg
  obtain ⟨key, hkey, hmem⟩ := hg
  split at hmem
  · simp at hmem
  · split at hmem
    · simp at hmem
    · exact scanGroups_min_size args _ g hmem

/-- The default duplicate-scan parameters (5-minute window, relaxed
matching). -/
def exDupArgs : DupArgs :=
  { time_window := 5, ignore_status := false, ignore_total := false,
    exact_match_only := false }

/-- Three orders of one customer, one minute apart, same dish. -/
def exDupA : Order :=
  { order_id := str "99999999-9999-4999-8999-999999999991"
    customer_name := str "Carl"
    dishes := [⟨str "Burger", 1⟩]
    order_total := 10
    status := str "new"
    order_time := str "2024-01-05T12:00:00"
    tags := []
    notes := []
    status_history := [(str "2024-01-05T12:00:00", str "new", none)]
    delivery_info := none
    assignment_history := [] }

/-- Second order, one minute after `exDupA`. -/
def exDupB : Order :=
  { exDupA with
    order_id := str "99999999-9999-4999-8999-999999999992"
    order_time := str "2024-01-05T12:01:00" }

/-- Third order, two minutes after `exDupA`. -/
def exDupC : Order :=
  { exDupA with
    order_id := str "99999999-9999-4999-8999-999999999993"
    order_time := str "2024-01-05T12:02:00" }

/-- C8 counterexample: with the default parameters the scan over three
within-window duplicates emits the groups `[[A,B,C], [B,C]]` — orders
`B` and `C` each appear in two groups of the same pass, refuting "a
single order appears in at most one group per scan pass". -/
theorem duplicate_groups_overlap_counterexample :
    findDuplicateGroups exDupArgs [exDupA, exDupB, exDupC] =
      [[exDupA, exDupB, exDupC], [exDupB, exDupC]] ∧
    (findDuplicateGroups exDupArgs [exDupA, exDupB, exDupC]).countP
      (fun g => exDupB ∈ g) = 2 := by
  decide

/-- C8 witness: the group-size bound applied to a concrete emitted
group. -/
theorem duplicate_groups_min_size_witness :
    2 ≤ ([exDupB, exDupC] : List Order).length :=
  duplicate_groups_min_size exDupArgs [exDupA, exDupB, exDupC] [exDupB, exDupC] (by decide)
